import Mathlib

/-!
Verification of the fastn flow validator (`flow_validator.py`).

The Python validator inspects a parsed flow document and accumulates
diagnostics at three severities.  This file embeds the data the checks
read (the step graph and the few flow fields they consume) and the
checker functions themselves, then proves the stated properties.

Conventions of the embedding:
* a Python `dict.get(key)` that may be absent is an `Option`;
* Python truthiness on strings (`if s:` is false for `None` and `""`)
  is the `tstr` normalisation, and `a or b` on such fields is `pyOr`;
* Python `set`s are duplicate-free lists (membership is all that is used,
  plus a final `sorted`);
* the recursive reachability walk carries explicit fuel; the fuel used by
  the top-level entry point (the total number of step objects in the list,
  bodies included, plus one) exceeds the number of ids the walk can ever
  add to its visited set, so the cut-off is never reached.
-/

/-- The single-quote character used by the validator message templates. -/
def pyq : String := String.singleton (Char.ofNat 39)

/-- Diagnostic sink: ordered error/warning/info message lists. -/
structure Diag where
  errors : List String
  warnings : List String
  info : List String
deriving Repr, DecidableEq

def Diag.empty : Diag := ⟨[], [], []⟩

/-- Message formatting of the sink: severity tag, optional location, message. -/
def fmtTag (tag msg loc : String) : String :=
  tag ++ (if loc = "" then "" else " [" ++ loc ++ "]") ++ ": " ++ msg

def fmtErr (msg : String) : String := fmtTag "❌ ERROR" msg ""

def Diag.addError (d : Diag) (msg loc : String) : Diag :=
  ⟨d.errors ++ [fmtTag "❌ ERROR" msg loc], d.warnings, d.info⟩

def Diag.addWarning (d : Diag) (msg loc : String) : Diag :=
  ⟨d.errors, d.warnings ++ [fmtTag "⚠️  WARNING" msg loc], d.info⟩

def Diag.addInfo (d : Diag) (msg loc : String) : Diag :=
  ⟨d.errors, d.warnings, d.info ++ [fmtTag "ℹ️  INFO" msg loc]⟩

def Diag.append (d e : Diag) : Diag :=
  ⟨d.errors ++ e.errors, d.warnings ++ e.warnings, d.info ++ e.info⟩

/-- Python truthiness on an optional string: `None` and `""` are falsy. -/
def tstr : Option String → Option String
  | some "" => none
  | o => o

/-- Python `a or b` over optional string fields (truthiness based). -/
def pyOr (a b : Option String) : Option String :=
  match tstr a with
  | some x => some x
  | none => tstr b

/-- One branch of a CONDITIONAL step: `{operation?, next?}`. -/
structure Expression where
  operation : Option String
  next : Option String
deriving Repr, DecidableEq

/-- The `conditional` body: branch expressions plus a default `next`. -/
structure Conditional where
  expressions : List Expression
  next : Option String
deriving Repr, DecidableEq

/-- The `function` descriptor a COMPOSITE/API step may carry. -/
structure FuncDesc where
  name : Option String
deriving Repr, DecidableEq

mutual
/-- A step object: `id`, `type`, `next`, optional `function` descriptor and
the optional `composite` / `loop` / `conditional` bodies that the checked
code reads. -/
inductive Step : Type where
  | mk : Option String → Option String → Option String → Option FuncDesc →
      Option SubGraph → Option SubGraph → Option Conditional → Step

/-- The shared shape of a `composite` or `loop` body:
`{start?, steps, next?}`. -/
inductive SubGraph : Type where
  | mk : Option String → List Step → Option String → SubGraph
end

def Step.id : Step → Option String
  | .mk i _ _ _ _ _ _ => i

def Step.type : Step → Option String
  | .mk _ t _ _ _ _ _ => t

def Step.next : Step → Option String
  | .mk _ _ n _ _ _ _ => n

def Step.function : Step → Option FuncDesc
  | .mk _ _ _ f _ _ _ => f

def Step.composite : Step → Option SubGraph
  | .mk _ _ _ _ c _ _ => c

def Step.loop : Step → Option SubGraph
  | .mk _ _ _ _ _ l _ => l

def Step.conditional : Step → Option Conditional
  | .mk _ _ _ _ _ _ c => c

def SubGraph.start : SubGraph → Option String
  | .mk s _ _ => s

def SubGraph.steps : SubGraph → List Step
  | .mk _ l _ => l

def SubGraph.next : SubGraph → Option String
  | .mk _ _ n => n

/-- The empty sub-graph body, the `step.get("composite", {})` default. -/
def SubGraph.empty : SubGraph := ⟨none, [], none⟩

/-- The empty conditional body, the `step.get("conditional", {})` default. -/
def Conditional.empty : Conditional := ⟨[], none⟩

/-- The resolver: entry-point id plus the top-level step list. -/
structure Resolver where
  start : Option String
  steps : Option (List Step)

/-- The flow fields the embedded checkers consume. -/
structure FlowDoc where
  status : Option String
  resolver : Option Resolver

/-- The set `VALID_STATUS_VALUES` of the validator. -/
def VALID_STATUS_VALUES : List String := ["DEPLOYED", "CONNECT", "PUBLISH"]

/-- The set `INVALID_STATUS_VALUES` of the validator. -/
def INVALID_STATUS_VALUES : List String := ["DRAFT", "ACTIVE", "INACTIVE", "PENDING"]

/-- Function `validate_status_field`: missing status is a Warning; a value outside the
valid set is an Error, with two extra Errors when it is in the known-invalid
set, or a single unknown-value Error otherwise. -/
def validate_status_field (flow : FlowDoc) : Diag :=
  match flow.status with
  | none => Diag.empty.addWarning ("Missing " ++ pyq ++ "status" ++ pyq ++ " field") ""
  | some status =>
    if status ∈ VALID_STATUS_VALUES then Diag.empty
    else if status ∈ INVALID_STATUS_VALUES then
      (((Diag.empty.addError
        ("Invalid status value " ++ pyq ++ status ++ pyq ++
          ". This will cause deserialization failure!") "").addError
        ("Valid status values are: " ++ String.intercalate ", " VALID_STATUS_VALUES) "").addError
        ("NEVER use " ++ pyq ++ "DRAFT" ++ pyq ++ " - it" ++ pyq ++ "s not a valid enum value") "")
    else
      Diag.empty.addError
        ("Unknown status value " ++ pyq ++ status ++ pyq ++ ". Use one of: " ++
          String.intercalate ", " VALID_STATUS_VALUES) ""

/-- Insert a string into a list ordered by `≤` (helper for `sortStrs`). -/
def insortStr (x : String) : List String → List String
  | [] => [x]
  | y :: ys => if x ≤ y then x :: y :: ys else y :: insortStr x ys

/-- Python `sorted` on a list of strings (insertion sort, lexicographic). -/
def sortStrs (l : List String) : List String := l.foldr insortStr []

/-- The step lookup built by `validate_step_connectivity`: every step that has
an `id` key, keyed by that id (a later duplicate overwrites an earlier one,
hence lookup scans from the right). -/
def topStepDict (steps : List Step) : List (String × Step) :=
  steps.filterMap (fun s => s.id.map (fun i => (i, s)))

/-- Lookup in a step dictionary; the last binding of a key wins, matching
Python dict assignment order. -/
def dictLookup (d : List (String × Step)) (k : String) : Option Step :=
  (d.reverse.find? (fun p => p.1 == k)).map (fun p => p.2)

/-- The set `all_step_ids`: ids of top-level steps that have an `id` key. -/
def topStepIds (steps : List Step) : List String :=
  steps.foldl (fun acc s =>
    match s.id with
    | some i => if i ∈ acc then acc else acc ++ [i]
    | none => acc) []

/-- Set insertion for the visited/reachable sets of the traversal. -/
def addElem (l : List String) (x : String) : List String :=
  if x ∈ l then l else l ++ [x]

/-- The pair of sets threaded through `_trace_reachable_steps`: the shared
`visited` set and the accumulated `reachable_steps` set. -/
structure TraceSt where
  visited : List String
  reachable : List String
deriving Repr, DecidableEq

/-- Function `_trace_reachable_steps`, with explicit fuel for the recursion.  A call
returns the state unchanged when the id is already visited or absent from the
current scope dictionary; otherwise it records the id in both sets and follows
the per-type successor edges: COMPOSITE enters its body at `composite.start`,
else at the body list head, then follows `composite.next or step.next`; LOOP
enters its body at `loop.start` only, then follows `loop.next or step.next`;
CONDITIONAL follows every expression `next` then
`conditional.next or step.next`; any other type follows `step.next`. -/
def traceSteps : Nat → String → List (String × Step) → TraceSt → TraceSt
  | 0, _, _, st => st
  | fuel + 1, sid, dict, st =>
    if sid ∈ st.visited then st
    else
      match dictLookup dict sid with
      | none => st
      | some step =>
        let st1 : TraceSt := ⟨addElem st.visited sid, addElem st.reachable sid⟩
        let t := step.type.getD ""
        if t = "COMPOSITE" then
          let comp := step.composite.getD SubGraph.empty
          let idict := topStepDict comp.steps
          let st2 :=
            match tstr comp.start with
            | some s => traceSteps fuel s idict st1
            | none =>
              match comp.steps with
              | [] => st1
              | first :: _ =>
                match first.id with
                | some fid => traceSteps fuel fid idict st1
                | none => st1
          match pyOr comp.next step.next with
          | some n => traceSteps fuel n dict st2
          | none => st2
        else if t = "LOOP" then
          let lp := step.loop.getD SubGraph.empty
          let ldict := topStepDict lp.steps
          let st2 :=
            match tstr lp.start with
            | some s => traceSteps fuel s ldict st1
            | none => st1
          match pyOr lp.next step.next with
          | some n => traceSteps fuel n dict st2
          | none => st2
        else if t = "CONDITIONAL" then
          let cond := step.conditional.getD Conditional.empty
          let st2 := cond.expressions.foldl (fun acc e =>
            match tstr e.next with
            | some n => traceSteps fuel n dict acc
            | none => acc) st1
          match pyOr cond.next step.next with
          | some n => traceSteps fuel n dict st2
          | none => st2
        else
          match tstr step.next with
          | some n => traceSteps fuel n dict st1
          | none => st1

mutual
/-- Number of step objects in one step, nested bodies included. -/
def stepCount : Step → Nat
  | .mk _ _ _ _ c l _ =>
    1 + (match c with | some g => graphCount g | none => 0)
      + (match l with | some g => graphCount g | none => 0)

/-- Number of step objects in a sub-graph body. -/
def graphCount : SubGraph → Nat
  | .mk _ steps _ => stepsCount steps

/-- Number of step objects in a step list, nested bodies included. -/
def stepsCount : List Step → Nat
  | [] => 0
  | s :: rest => stepCount s + stepsCount rest
end

/-- The expression fold of the CONDITIONAL branch, as a named function. -/
def foldExprs (fuel : Nat) (dict : List (String × Step)) (exprs : List Expression)
    (st : TraceSt) : TraceSt :=
  exprs.foldl (fun acc e =>
    match tstr e.next with
    | some n => traceSteps fuel n dict acc
    | none => acc) st

/-- The traversal as run by `validate_step_connectivity`: fresh empty sets,
fuel larger than the number of ids any walk can add (every recursive call
that does not return immediately adds one id drawn from some step object of
the flow to the visited set, so no chain of calls is longer than
`stepsCount steps + 1`). -/
def reachResult (steps : List Step) (start : String) : TraceSt :=
  traceSteps (stepsCount steps + 1) start (topStepDict steps) ⟨[], []⟩

/-- Python `sorted(all_step_ids - reachable_steps)`. -/
def unreachableIds (steps : List Step) (start : String) : List String :=
  sortStrs ((topStepIds steps).filter
    (fun i => i ∉ (reachResult steps start).reachable))

/-- Reference errors of the conditional expressions of one step
(`expression {i}` messages are zero-indexed in the source). -/
def condExprRefErrors (exprs : List Expression) (i : Nat)
    (dict : List (String × Step)) (sid : String) : List String :=
  match exprs with
  | [] => []
  | e :: rest =>
    (match tstr e.next with
     | some n =>
       if (dictLookup dict n).isNone then
         [fmtErr ("Conditional step " ++ pyq ++ sid ++ pyq ++ " expression " ++
           toString i ++ " references non-existent next step " ++ pyq ++ n ++ pyq)]
       else []
     | none => []) ++ condExprRefErrors rest (i + 1) dict sid

/-- Function `_validate_step_next_references`: the plain `next`, then the type-matched
`composite.next` / `loop.next` / conditional edges, each checked against the
top-level dictionary. -/
def stepNextRefErrors (step : Step) (dict : List (String × Step))
    (sid : String) : List String :=
  (match tstr step.next with
   | some n =>
     if (dictLookup dict n).isNone then
       [fmtErr ("Step " ++ pyq ++ sid ++ pyq ++
         " references non-existent next step " ++ pyq ++ n ++ pyq)]
     else []
   | none => []) ++
  (let t := step.type.getD ""
   if t = "COMPOSITE" then
     let comp := step.composite.getD SubGraph.empty
     match tstr comp.next with
     | some n =>
       if (dictLookup dict n).isNone then
         [fmtErr ("Composite step " ++ pyq ++ sid ++ pyq ++
           " references non-existent next step " ++ pyq ++ n ++ pyq)]
       else []
     | none => []
   else if t = "LOOP" then
     let lp := step.loop.getD SubGraph.empty
     match tstr lp.next with
     | some n =>
       if (dictLookup dict n).isNone then
         [fmtErr ("Loop step " ++ pyq ++ sid ++ pyq ++
           " references non-existent next step " ++ pyq ++ n ++ pyq)]
       else []
     | none => []
   else if t = "CONDITIONAL" then
     let cond := step.conditional.getD Conditional.empty
     condExprRefErrors cond.expressions 0 dict sid ++
     (match tstr cond.next with
      | some n =>
        if (dictLookup dict n).isNone then
          [fmtErr ("Conditional step " ++ pyq ++ sid ++ pyq ++
            " references non-existent default next step " ++ pyq ++ n ++ pyq)]
        else []
      | none => [])
   else [])

/-- The orphan message of `validate_step_connectivity`. -/
def orphanMsg (ids : List String) : String :=
  fmtErr ("Found orphaned/unreachable steps: " ++ String.intercalate ", " ids)

/-- The follow-up message emitted together with the orphan message. -/
def allConnectedMsg : String :=
  fmtErr "All steps must be connected and reachable from the start step"

/-- The missing-start message of `validate_step_connectivity`. -/
def missingStartMsg : String :=
  fmtErr ("Missing " ++ pyq ++ "start" ++ pyq ++
    " field in resolver - no entry point defined for the flow")

/-- Function `validate_step_connectivity` (this check records errors only): requires a
truthy `start`, reports the sorted orphan set, a start id absent from the
lookup, and per-step dangling `next` references. -/
def validate_step_connectivity (flow : FlowDoc) : List String :=
  match flow.resolver with
  | none => []
  | some r =>
    match r.steps with
    | none => []
    | some steps =>
      match tstr r.start with
      | none => [missingStartMsg]
      | some start =>
        let dict := topStepDict steps
        let unreachable := unreachableIds steps start
        (if unreachable = [] then [] else [orphanMsg unreachable, allConnectedMsg]) ++
        (if (dictLookup dict start).isNone then
          [fmtErr ("Start step " ++ pyq ++ start ++ pyq ++ " not found in steps list")]
         else []) ++
        steps.flatMap (fun s => stepNextRefErrors s dict (s.id.getD "unknown"))

/-- The space character. -/
def spaceChar : Char := Char.ofNat 32

/-- The hyphen character. -/
def dashChar : Char := Char.ofNat 45

/-- The underscore character. -/
def underscoreChar : Char := Char.ofNat 95

/-- The newline character. -/
def nlChar : Char := Char.ofNat 10

/-- Body of the camel-case regex `[a-z][a-zA-Z0-9]*` over a char list
(ASCII classes, as in Python `re`). -/
def camelBody (l : List Char) : Bool :=
  match l with
  | [] => false
  | c :: rest => c.isLower && rest.all (fun ch => ch.isAlpha || ch.isDigit)

/-- Python `re.match(r"^[a-z][a-zA-Z0-9]*$", s)` as a Boolean: the whole string
matches the body, or all of it but a single trailing newline does (Python
`$` also matches just before a final newline). -/
def reMatchCamel (s : String) : Bool :=
  camelBody s.data ||
    (match s.data.getLast? with
     | some c => c = nlChar && camelBody s.data.dropLast
     | none => false)

/-- Function `_validate_composite_step_name`: warn when the id differs from the
declared connector endpoint name, and check the camel-case shape. -/
def validate_composite_step_name (step : Step) (loc : String) : Diag :=
  let step_id := step.id.getD ""
  (match step.function with
   | some f =>
     let connector := f.name.getD ""
     if connector ≠ "" ∧ step_id ≠ connector then
       ((Diag.empty.addWarning
         ("COMPOSITE step name " ++ pyq ++ step_id ++ pyq ++ " doesn" ++ pyq ++
           "t match connector endpoint " ++ pyq ++ connector ++ pyq) loc).addInfo
         "COMPOSITE steps should use exact connector endpoint names from JSON files" "").addInfo
         ("Consider renaming step to " ++ pyq ++ connector ++ pyq ++ " to match connector") ""
     else Diag.empty
   | none => Diag.empty).append
  (if ¬ reMatchCamel step_id then
     Diag.empty.addError
       ("Invalid COMPOSITE step name " ++ pyq ++ step_id ++ pyq ++ " - must be camelCase") loc
   else Diag.empty)

/-- The one-level check of ids inside a `composite` body performed by
`_validate_nested_step_names` (this branch does not recurse). -/
def compositeNestedList (l : List Step) (i : Nat) (p : String) : Diag :=
  match l with
  | [] => Diag.empty
  | n :: rest =>
    let nid := n.id.getD ""
    (if nid ≠ "" ∧ ¬ reMatchCamel nid then
       Diag.empty.addError
         ("Invalid nested step name " ++ pyq ++ nid ++ pyq ++ " - must be camelCase")
         (p ++ ".composite.steps[" ++ toString i ++ "]")
     else Diag.empty).append (compositeNestedList rest (i + 1) p)

/-- Auxiliary size bound: a loop body list is smaller than its step. -/
lemma sizeOf_loop_steps {s : Step} {g : SubGraph} (h : s.loop = some g) :
    sizeOf g.steps < sizeOf s := by
  cases s with
  | mk i t n f c l cd =>
    simp [Step.loop] at h
    subst h
    cases g with
    | mk st sts nx =>
      simp [SubGraph.steps]
      simp_arith [sizeOf]

mutual
/-- Function `_validate_nested_step_names`: ids one level inside a `composite` body
are checked (without recursing further); a `loop` body is checked and then
recursed into, step by step. -/
def nestedStepNames (step : Step) (parentPath : String) : Diag :=
  if step.type = some "COMPOSITE" ∧ step.composite.isSome then
    compositeNestedList ((step.composite.getD SubGraph.empty).steps) 0 parentPath
  else if step.type = some "LOOP" then
    match h : step.loop with
    | some lp => loopNestedList lp.steps 0 parentPath
    | none => Diag.empty
  else Diag.empty
termination_by sizeOf step
decreasing_by exact sizeOf_loop_steps h

/-- The loop branch of `_validate_nested_step_names`: report a bad nested id,
then recurse into the nested step. -/
def loopNestedList (l : List Step) (i : Nat) (p : String) : Diag :=
  match l with
  | [] => Diag.empty
  | n :: rest =>
    let nid := n.id.getD ""
    ((if nid ≠ "" ∧ ¬ reMatchCamel nid then
        Diag.empty.addError
          ("Invalid nested step name " ++ pyq ++ nid ++ pyq ++ " - must be camelCase")
          (p ++ ".loop.steps[" ++ toString i ++ "]")
      else Diag.empty).append
      (nestedStepNames n (p ++ ".loop." ++ nid))).append
      (loopNestedList rest (i + 1) p)
termination_by sizeOf l
decreasing_by all_goals first | (simp [List._sizeOf_1]; try omega) | omega
end

/-- The per-step body of `_validate_step_names` (for the step at index `i`):
a missing or empty id stops the step (no nested check); a COMPOSITE id goes
through `validate_composite_step_name`; any other id gets the camel-case
check and the specific space/dash/underscore/uppercase messages; then the
nested ids are checked. -/
def stepNameOne (step : Step) (i : Nat) : Diag :=
  let step_id := step.id.getD ""
  let step_type := step.type.getD ""
  let loc := "Step " ++ toString (i + 1)
  if step_id = "" then
    Diag.empty.addError ("Step missing " ++ pyq ++ "id" ++ pyq ++ " field") loc
  else
    (if step_type = "COMPOSITE" then
       validate_composite_step_name step loc
     else
       ((if ¬ reMatchCamel step_id then
           (Diag.empty.addError
             ("Invalid step name " ++ pyq ++ step_id ++ pyq ++
               " - must be camelCase (start with lowercase, only letters/numbers)") loc).addInfo
             ("Good step names: " ++ pyq ++ "transformData" ++ pyq ++ ", " ++ pyq ++
               "validateInput" ++ pyq ++ ", " ++ pyq ++ "processOrders" ++ pyq) ""
         else Diag.empty).append
        (if step_id.contains spaceChar then
           Diag.empty.addError
             ("Step name " ++ pyq ++ step_id ++ pyq ++ " contains spaces - use camelCase") loc
         else if step_id.contains dashChar then
           Diag.empty.addError
             ("Step name " ++ pyq ++ step_id ++ pyq ++ " contains dashes - use camelCase") loc
         else if step_id.contains underscoreChar then
           Diag.empty.addError
             ("Step name " ++ pyq ++ step_id ++ pyq ++ " contains underscores - use camelCase")
             loc
         else if (step_id.data.headD spaceChar).isUpper then
           Diag.empty.addError
             ("Step name " ++ pyq ++ step_id ++ pyq ++
               " starts with uppercase - use camelCase (start with lowercase)") loc
         else Diag.empty))).append
    (nestedStepNames step step_id)

/-- The step loop of `_validate_step_names`. -/
def stepNamesList (steps : List Step) (i : Nat) : Diag :=
  match steps with
  | [] => Diag.empty
  | step :: rest => (stepNameOne step i).append (stepNamesList rest (i + 1))

/-- Function `_validate_step_names`: nothing to do without a resolver step list. -/
def validate_step_names (flow : FlowDoc) : Diag :=
  match flow.resolver with
  | none => Diag.empty
  | some r =>
    match r.steps with
    | none => Diag.empty
    | some steps => stepNamesList steps 0

/-- The set `VALID_CONDITIONAL_OPERATIONS` of the validator. -/
def VALID_CONDITIONAL_OPERATIONS : List String :=
  ["DOES_NOT_CONTAIN", "LENGTH_EQ", "GREATER_THAN", "LESS_THAN",
   "NOT_EXISTS", "EQ_IGNORE_CASE", "EQ", "ENDS_WITH", "GREATER_THAN_OR_EQ",
   "LESS_THAN_OR_EQ", "STARTS_WITH", "DOES_NOT_START_WITH", "NOT_EQ", "NEQ",
   "MATCHES_REGEX", "EXISTS", "CONTAINS", "NONE", "DOES_NOT_MATCH_REGEX",
   "TYPE_OF", "DOES_NOT_END_WITH"]

/-- The map `INVALID_CONDITIONAL_OPERATIONS`: common mistakes with their fixes. -/
def INVALID_CONDITIONAL_OPERATIONS : List (String × String) :=
  [("GT", "GREATER_THAN"), ("LT", "LESS_THAN"),
   ("GTE", "GREATER_THAN_OR_EQ"), ("LTE", "LESS_THAN_OR_EQ"),
   ("!=", "NOT_EQ"), ("==", "EQ"), ("EQUALS", "EQ"), ("NOT_EQUALS", "NOT_EQ")]

/-- The info line listing the valid conditional operations, sorted. -/
def validOpsInfo : String :=
  "Valid operations: " ++ String.intercalate ", " (sortStrs VALID_CONDITIONAL_OPERATIONS)

/-- The expression loop of `validate_conditional_operations`; `i` is the
step index and `j` the expression index (messages are one-based). -/
def condOpsExprs (exprs : List Expression) (i j : Nat) : Diag :=
  match exprs with
  | [] => Diag.empty
  | e :: rest =>
    (match e.operation with
     | some op =>
       match INVALID_CONDITIONAL_OPERATIONS.find? (fun (p : String × String) => p.1 == op) with
       | some p =>
         ((Diag.empty.addError
           ("Invalid conditional operation " ++ pyq ++ op ++ pyq ++ " in step " ++
             toString (i + 1) ++ ", expression " ++ toString (j + 1)) "").addError
           ("Use " ++ pyq ++ p.2 ++ pyq ++ " instead of " ++ pyq ++ op ++ pyq) "").addInfo
           validOpsInfo ""
       | none =>
         if op ∈ VALID_CONDITIONAL_OPERATIONS then Diag.empty
         else
           (Diag.empty.addError
             ("Unknown conditional operation " ++ pyq ++ op ++ pyq ++ " in step " ++
               toString (i + 1) ++ ", expression " ++ toString (j + 1)) "").addInfo
             validOpsInfo ""
     | none => Diag.empty).append (condOpsExprs rest i (j + 1))

/-- The step loop of `validate_conditional_operations`: only steps directly in
`resolver.steps` whose type is CONDITIONAL and that carry a `conditional`
body are examined. -/
def condOpsSteps (steps : List Step) (i : Nat) : Diag :=
  match steps with
  | [] => Diag.empty
  | s :: rest =>
    (if s.type = some "CONDITIONAL" ∧ s.conditional.isSome then
       condOpsExprs (s.conditional.getD Conditional.empty).expressions i 0
     else Diag.empty).append (condOpsSteps rest (i + 1))

/-- Function `validate_conditional_operations`. -/
def validate_conditional_operations (flow : FlowDoc) : Diag :=
  match flow.resolver with
  | none => Diag.empty
  | some r =>
    match r.steps with
    | none => Diag.empty
    | some steps => condOpsSteps steps 0


/-- A step with its `composite` and `loop` bodies removed; the fields the
conditional-operation check reads are untouched. -/
def stripBodies (s : Step) : Step :=
  ⟨s.id, s.type, s.next, s.function, none, none, s.conditional⟩

/-- A parsed JSON value, for `validate_query_executor_structure`, which walks
the raw document rather than the step model. -/
inductive Json : Type where
  | null
  | bool (b : Bool)
  | num (n : Int)
  | str (s : String)
  | arr (items : List Json)
  | obj (fields : List (String × Json))

/-- Python `obj.get(key)` on a JSON object (first binding of the key). -/
def getKey (fields : List (String × Json)) (k : String) : Option Json :=
  (fields.find? (fun (p : String × Json) => p.1 == k)).map (fun p => p.2)

/-- Python `key in obj`. -/
def hasKey (fields : List (String × Json)) (k : String) : Bool :=
  (getKey fields k).isSome

/-- The ValueNode test: all three marker keys are present. -/
def isVN (fields : List (String × Json)) : Bool :=
  hasKey fields "returnLiteral" && hasKey fields "symbolOrIndex" && hasKey fields "version"

/-- Python `obj.get("children", [])`; the walked documents carry their children in
an array (any other shape yields nothing to iterate). -/
def childrenOf (fields : List (String × Json)) : List Json :=
  match getKey fields "children" with
  | some (Json.arr xs) => xs
  | _ => []

/-- Path joining of the walk: `f"{location}.{key}" if location else key`. -/
def dotLoc (loc key : String) : String :=
  if loc = "" then key else loc ++ "." ++ key

/-- The element path inside an array-valued key. -/
def idxLoc (loc key : String) (i : Nat) : String :=
  dotLoc loc (key ++ "[" ++ toString i ++ "]")

/-- The missing-children message, tagged with the object path. -/
def vnMissingMsg (loc : String) : String :=
  fmtErr ("Missing " ++ pyq ++ "children" ++ pyq ++ " array in queryExecutor structure" ++
    (if loc = "" then "" else " at " ++ loc))

/-- The fixed follow-up message for a missing children array. -/
def vnAllMsg : String :=
  fmtErr ("All queryExecutor value objects must have a " ++ pyq ++ "children" ++ pyq ++
    " array (can be empty)")

/-- A found value is smaller than the object list it came from. -/
lemma getKey_sizeOf {fields : List (String × Json)} {k : String} {v : Json}
    (h : getKey fields k = some v) : sizeOf v < sizeOf fields := by
  induction fields with
  | nil => simp [getKey] at h
  | cons p rest ih =>
    by_cases hk : (p.1 == k) = true
    · simp [getKey, List.find?, hk] at h
      subst h
      cases p with
      | mk a b => simp_arith
    · simp [getKey, List.find?, hk] at h
      obtain ⟨a, ha⟩ := h
      have hlt : sizeOf v < sizeOf rest := ih (by simp [getKey, ha])
      cases p with
      | mk c b =>
        simp_arith
        omega

/-- A list is never of size zero. -/
lemma sizeOf_list_pos {α : Type} [SizeOf α] (l : List α) : 0 < sizeOf l := by
  cases l <;> simp_arith

/-- The children list is smaller than the object it was read from. -/
lemma childrenOf_sizeOf (fields : List (String × Json)) :
    sizeOf (childrenOf fields) < 1 + sizeOf fields := by
  have hpos : 0 < sizeOf fields := sizeOf_list_pos fields
  rw [childrenOf]
  cases h : getKey fields "children" with
  | none => simp_arith; omega
  | some v =>
    cases v with
    | arr xs =>
      have hlt := getKey_sizeOf h
      simp_arith at hlt ⊢
      omega
    | null => simp_arith; omega
    | bool b => simp_arith; omega
    | num n => simp_arith; omega
    | str s => simp_arith; omega
    | obj f => simp_arith; omega

mutual
/-- Function `validate_query_executor_structure` (errors only; the function records no
warnings or info).  On an object: when the three ValueNode markers are
present, a missing `children` key yields the two errors, otherwise the walk
descends into each child entry through its `value` key; independently the
walk descends into every object-valued field and into every object element
of every array-valued field.  Non-object values contribute nothing. -/
def vqe (j : Json) (loc : String) : List String :=
  match j with
  | .obj fields =>
    (if isVN fields then
       if !hasKey fields "children" then [vnMissingMsg loc, vnAllMsg]
       else vqeChildren (childrenOf fields) 0 loc
     else []) ++ vqeFields fields loc
  | _ => []
termination_by sizeOf j
decreasing_by
  · have := childrenOf_sizeOf fields
    simp_arith
    omega
  · simp_arith

/-- The `children` recursion of the walk: each child object that has a
`value` key is entered through that value. -/
def vqeChildren (cs : List Json) (i : Nat) (loc : String) : List String :=
  match cs with
  | [] => []
  | c :: rest =>
    (match c with
     | .obj cf =>
       match hv : getKey cf "value" with
       | some v => vqe v (dotLoc loc ("children[" ++ toString i ++ "]"))
       | none => []
     | _ => []) ++ vqeChildren rest (i + 1) loc
termination_by sizeOf cs
decreasing_by
  · have := getKey_sizeOf hv
    simp_arith
    omega
  · simp_arith

/-- The generic recursion of the walk over all fields of an object. -/
def vqeFields (fields : List (String × Json)) (loc : String) : List String :=
  match fields with
  | [] => []
  | (k, v) :: rest =>
    (match v with
     | .obj g => vqe (Json.obj g) (dotLoc loc k)
     | .arr items => vqeArr items 0 loc k
     | _ => []) ++ vqeFields rest loc
termination_by sizeOf fields
decreasing_by
  · simp_arith
  · simp_arith
  · simp_arith

/-- The generic recursion of the walk over one array-valued field: only
object elements are entered. -/
def vqeArr (items : List Json) (i : Nat) (loc k : String) : List String :=
  match items with
  | [] => []
  | item :: rest =>
    (match item with
     | .obj g => vqe (Json.obj g) (idxLoc loc k i)
     | _ => []) ++ vqeArr rest (i + 1) loc k
termination_by sizeOf items
decreasing_by
  · simp_arith
  · simp_arith
end

/-! ### Concrete documents used by the stated properties -/

/-- Step `a` with `next: "b"`. -/
def stA : Step := ⟨some "a", none, some "b", none, none, none, none⟩

/-- Step `b` with no `next`. -/
def stB : Step := ⟨some "b", none, none, none, none, none, none⟩

/-- Step `c`, declared but with no incoming edge. -/
def stC : Step := ⟨some "c", none, none, none, none, none, none⟩

/-- The reachability example flow: start `a`, steps `a -> b`, orphan `c`. -/
def exC1flow : FlowDoc := ⟨none, some ⟨some "a", some [stA, stB, stC]⟩⟩

/-- A plain nested step with id `x`. -/
def stXEx : Step := ⟨some "x", none, none, none, none, none, none⟩

/-- A LOOP step whose body declares `x` but no `loop.start`. -/
def stLoopEx : Step :=
  ⟨some "l", some "LOOP", none, none, none, some ⟨none, [stXEx], none⟩, none⟩

/-- The flow exercising the LOOP entry rule: start at the loop step. -/
def exLoopFlow : FlowDoc := ⟨none, some ⟨some "l", some [stLoopEx]⟩⟩

/-- Nested step `x2` of the positive LOOP example. -/
def stX2 : Step := ⟨some "x2", none, none, none, none, none, none⟩

/-- Top-level step `m2`, the loop exit target. -/
def stM2 : Step := ⟨some "m2", none, none, none, none, none, none⟩

/-- A LOOP step with `loop.start: "x2"` and its own `next: "m2"`. -/
def stLoop2 : Step :=
  ⟨some "l2", some "LOOP", some "m2", none, none, some ⟨some "x2", [stX2], none⟩, none⟩

/-- A step whose `next` names an id that is not declared. -/
def stDangling : Step := ⟨some "a", none, some "zz", none, none, none, none⟩

/-- The dangling-edge flow without a resolver `start`. -/
def exNoStart : FlowDoc := ⟨none, some ⟨none, some [stDangling]⟩⟩

/-- The dangling-edge flow with a resolver `start`. -/
def exWithStart : FlowDoc := ⟨none, some ⟨some "a", some [stDangling]⟩⟩

/-- A flow whose `status` is `"DRAFT"`. -/
def flowDraft : FlowDoc := ⟨some "DRAFT", none⟩

/-- A step two COMPOSITE levels deep whose id breaks every naming rule. -/
def deepBad : Step := ⟨some "Bad Name", none, none, none, none, none, none⟩

/-- The middle COMPOSITE step holding `deepBad`. -/
def midB : Step :=
  ⟨some "b", some "COMPOSITE", none, none, some ⟨none, [deepBad], none⟩, none, none⟩

/-- The top COMPOSITE step holding `midB`. -/
def topA : Step :=
  ⟨some "a", some "COMPOSITE", none, none, some ⟨none, [midB], none⟩, none, none⟩

/-- The flow with a badly named step at COMPOSITE depth two. -/
def flowDeepComposite : FlowDoc := ⟨none, some ⟨some "a", some [topA]⟩⟩

/-- A top-level step with a plainly bad id. -/
def stBadTop : Step := ⟨some "Bad", none, none, none, none, none, none⟩

/-- A flow whose only step has the bad id `Bad`. -/
def flowBadTop : FlowDoc := ⟨none, some ⟨some "x", some [stBadTop]⟩⟩

/-- Composite-internal step reusing the id `x` with successor `y`. -/
def inX : Step := ⟨some "x", none, some "y", none, none, none, none⟩

/-- Composite-internal step `y`. -/
def inY : Step := ⟨some "y", none, none, none, none, none, none⟩

/-- Top-level step with id `x` (visited before the nested `x`). -/
def stTopX : Step := ⟨some "x", none, some "a2", none, none, none, none⟩

/-- Top-level COMPOSITE whose body starts at the reused id `x`. -/
def stComp : Step :=
  ⟨some "a2", some "COMPOSITE", none, none, some ⟨some "x", [inX, inY], none⟩, none, none⟩

/-- The three ValueNode marker fields, with no `children` key. -/
def vnFields : List (String × Json) :=
  [("returnLiteral", Json.null), ("symbolOrIndex", Json.null), ("version", Json.null)]

/-- A ValueNode-shaped object lacking `children`. -/
def vn0 : Json := Json.obj vnFields

/-- A document whose only ValueNode sits inside an array inside an array. -/
def exArrArr : Json := Json.obj [("a", Json.arr [Json.arr [vn0]])]

/-- A document whose ValueNode sits directly under an object field. -/
def exObjField : Json := Json.obj [("x", vn0)]

/-- Conditional fan-out targets. -/
def cs1 : Step := ⟨some "s1", none, none, none, none, none, none⟩

/-- Second fan-out target. -/
def cs2 : Step := ⟨some "s2", none, none, none, none, none, none⟩

/-- Third fan-out target (default branch). -/
def cs3 : Step := ⟨some "s3", none, none, none, none, none, none⟩

/-- A CONDITIONAL step with two expression edges and a default `next`. -/
def stCondEx : Step :=
  ⟨some "cond", some "CONDITIONAL", none, none, none, none,
    some ⟨[⟨some "EQ", some "s1"⟩, ⟨some "EQ", some "s2"⟩], some "s3"⟩⟩

/-- A top-level step carrying no `id` key at all. -/
def stNoId : Step := ⟨none, none, some "b", none, none, none, none⟩

/-- A nested CONDITIONAL step using the misnomer operation `GT`. -/
def condNestedGT : Step :=
  ⟨some "n1", some "CONDITIONAL", none, none, none, none,
    some ⟨[⟨some "GT", none⟩], none⟩⟩

/-- A COMPOSITE step hiding `condNestedGT` in its body. -/
def compWithNestedCond : Step :=
  ⟨some "c1", some "COMPOSITE", none, none, some ⟨none, [condNestedGT], none⟩, none, none⟩

/-- The flow whose only invalid conditional operation is nested. -/
def flowNestedGT : FlowDoc := ⟨none, some ⟨some "c1", some [compWithNestedCond]⟩⟩

/-! ### Helper lemmas -/

/-- Helper `insortStr` is the ordered insert of the library. -/
lemma insortStr_eq_orderedInsert (x : String) (l : List String) :
    insortStr x l = List.orderedInsert (fun a b => a ≤ b) x l := by
  induction l with
  | nil => rfl
  | cons y ys ih => simp [insortStr, List.orderedInsert, ih]

/-- Helper `sortStrs` is the insertion sort of the library. -/
lemma sortStrs_eq_insertionSort (l : List String) :
    sortStrs l = List.insertionSort (fun a b => a ≤ b) l := by
  induction l with
  | nil => rfl
  | cons y ys ih =>
    simp [sortStrs, List.insertionSort, insortStr_eq_orderedInsert] at ih ⊢
    rw [ih]

/-- Sorting keeps exactly the original members. -/
lemma mem_sortStrs {a : String} {l : List String} : a ∈ sortStrs l ↔ a ∈ l := by
  rw [sortStrs_eq_insertionSort]
  exact (List.perm_insertionSort _ l).mem_iff

/-- The sorted list is sorted by `≤`. -/
lemma sortStrs_sorted (l : List String) : (sortStrs l).Sorted (fun a b => a ≤ b) := by
  rw [sortStrs_eq_insertionSort]
  exact List.sorted_insertionSort _ l

/-- Errors of an appended diagnostic pair. -/
lemma Diag.append_errors (d e : Diag) : (d.append e).errors = d.errors ++ e.errors := rfl

/-- Membership in `addElem`. -/
lemma mem_addElem_iff {l : List String} {x y : String} :
    y ∈ addElem l x ↔ y ∈ l ∨ y = x := by
  by_cases h : x ∈ l
  · simp only [addElem, if_pos h]
    constructor
    · exact fun hy => Or.inl hy
    · rintro (hy | rfl)
      · exact hy
      · exact h
  · simp [addElem, if_neg h]

/-- A list is contained in its extension. -/
lemma subset_addElem (l : List String) (x : String) : l ⊆ addElem l x :=
  fun _ hy => mem_addElem_iff.mpr (Or.inl hy)

/-- The inserted element is a member. -/
lemma mem_addElem_self (l : List String) (x : String) : x ∈ addElem l x :=
  mem_addElem_iff.mpr (Or.inr rfl)

/-- Insertion `addElem` preserves inclusions. -/
lemma addElem_subset_addElem {a b : List String} (h : a ⊆ b) (x : String) :
    addElem a x ⊆ addElem b x := by
  intro y hy
  rcases mem_addElem_iff.mp hy with hm | he
  · exact subset_addElem b x (h hm)
  · exact he ▸ mem_addElem_self b x

/-- Pointwise inclusion of traversal states. -/
def TraceSt.le (a b : TraceSt) : Prop :=
  a.visited ⊆ b.visited ∧ a.reachable ⊆ b.reachable

/-- Inclusion is reflexive. -/
lemma TraceSt.le_refl (a : TraceSt) : TraceSt.le a a :=
  ⟨fun _ h => h, fun _ h => h⟩

/-- Inclusion is transitive. -/
lemma TraceSt.le_trans {a b c : TraceSt} (h1 : TraceSt.le a b) (h2 : TraceSt.le b c) :
    TraceSt.le a c :=
  ⟨fun _ h => h2.1 (h1.1 h), fun _ h => h2.2 (h1.2 h)⟩

/-- The traversal only ever grows both sets. -/
lemma traceSteps_mono :
    ∀ (fuel : Nat) (sid : String) (dict : List (String × Step)) (st : TraceSt),
      TraceSt.le st (traceSteps fuel sid dict st) := by
  intro fuel
  induction fuel with
  | zero => intro sid dict st; exact TraceSt.le_refl st
  | succ fuel ih =>
    intro sid dict st
    rw [traceSteps]
    by_cases hv : sid ∈ st.visited
    · simp only [if_pos hv]; exact TraceSt.le_refl st
    · simp only [if_neg hv]
      cases hl : dictLookup dict sid with
      | none => exact TraceSt.le_refl st
      | some step =>
        have h1 : TraceSt.le st ⟨addElem st.visited sid, addElem st.reachable sid⟩ :=
          ⟨subset_addElem _ _, subset_addElem _ _⟩
        have hexit : ∀ (o : Option String) (stx : TraceSt),
            TraceSt.le stx
              (match o with | some n => traceSteps fuel n dict stx | none => stx) := by
          intro o stx
          cases o with
          | some n => exact ih n dict stx
          | none => exact TraceSt.le_refl stx
        by_cases hc : step.type.getD "" = "COMPOSITE"
        · simp only [if_pos hc]
          refine TraceSt.le_trans h1 ?_
          cases hs : tstr (step.composite.getD SubGraph.empty).start with
          | some s => dsimp only; exact TraceSt.le_trans (ih s _ _) (hexit _ _)
          | none =>
            dsimp only
            cases hcs : (step.composite.getD SubGraph.empty).steps with
            | nil => dsimp only; exact hexit _ _
            | cons first rest =>
              dsimp only
              cases hid : first.id with
              | some fid => dsimp only; exact TraceSt.le_trans (ih fid _ _) (hexit _ _)
              | none => dsimp only; exact hexit _ _
        · simp only [if_neg hc]
          by_cases hL : step.type.getD "" = "LOOP"
          · simp only [if_pos hL]
            refine TraceSt.le_trans h1 ?_
            cases hs : tstr (step.loop.getD SubGraph.empty).start with
            | some s => dsimp only; exact TraceSt.le_trans (ih s _ _) (hexit _ _)
            | none => dsimp only; exact hexit _ _
          · simp only [if_neg hL]
            by_cases hC : step.type.getD "" = "CONDITIONAL"
            · simp only [if_pos hC]
              have hfold : ∀ (exprs : List Expression) (st0 : TraceSt),
                  TraceSt.le st0 (exprs.foldl (fun acc e =>
                    match tstr e.next with
                    | some n => traceSteps fuel n dict acc
                    | none => acc) st0) := by
                intro exprs
                induction exprs with
                | nil => intro st0; exact TraceSt.le_refl st0
                | cons e es ihe =>
                  intro st0
                  simp only [List.foldl_cons]
                  refine TraceSt.le_trans ?_ (ihe _)
                  cases tstr e.next with
                  | some n => exact ih n dict st0
                  | none => exact TraceSt.le_refl st0
              exact TraceSt.le_trans h1
                (TraceSt.le_trans (hfold _ _) (hexit _ _))
            · simp only [if_neg hC]
              refine TraceSt.le_trans h1 ?_
              cases hs : tstr step.next with
              | some n => exact ih n dict _
              | none => exact TraceSt.le_refl _

/-- An already-visited id is not traversed again: the call returns its input
state unchanged, whatever scope dictionary is current. -/
lemma traceSteps_visited (fuel : Nat) (sid : String) (dict : List (String × Step))
    (st : TraceSt) (h : sid ∈ st.visited) : traceSteps fuel sid dict st = st := by
  cases fuel with
  | zero => rfl
  | succ fuel => rw [traceSteps]; simp [h]

/-- The expression fold only grows the state. -/
lemma foldExprs_mono (fuel : Nat) (dict : List (String × Step)) :
    ∀ (exprs : List Expression) (st : TraceSt), TraceSt.le st (foldExprs fuel dict exprs st) := by
  intro exprs
  induction exprs with
  | nil => intro st; exact TraceSt.le_refl st
  | cons e es ihe =>
    intro st
    simp only [foldExprs, List.foldl_cons] at ihe ⊢
    refine TraceSt.le_trans ?_ (ihe _)
    cases tstr e.next with
    | some n => exact traceSteps_mono fuel n dict st
    | none => exact TraceSt.le_refl st

/-- Visited ids stay inside the reachable set through a traversal call. -/
lemma traceSteps_vr :
    ∀ (fuel : Nat) (sid : String) (dict : List (String × Step)) (st : TraceSt),
      st.visited ⊆ st.reachable →
      (traceSteps fuel sid dict st).visited ⊆ (traceSteps fuel sid dict st).reachable := by
  intro fuel
  induction fuel with
  | zero => intro sid dict st h; exact h
  | succ fuel ih =>
    intro sid dict st h
    rw [traceSteps]
    by_cases hv : sid ∈ st.visited
    · simp only [if_pos hv]; exact h
    · simp only [if_neg hv]
      cases hl : dictLookup dict sid with
      | none => exact h
      | some step =>
        have h1 : (TraceSt.mk (addElem st.visited sid) (addElem st.reachable sid)).visited ⊆
            (TraceSt.mk (addElem st.visited sid) (addElem st.reachable sid)).reachable :=
          addElem_subset_addElem h sid
        have hexit : ∀ (o : Option String) (stx : TraceSt),
            stx.visited ⊆ stx.reachable →
            (match o with | some n => traceSteps fuel n dict stx | none => stx).visited ⊆
            (match o with | some n => traceSteps fuel n dict stx | none => stx).reachable := by
          intro o stx hx
          cases o with
          | some n => exact ih n dict stx hx
          | none => exact hx
        by_cases hc : step.type.getD "" = "COMPOSITE"
        · simp only [if_pos hc]
          cases hs : tstr (step.composite.getD SubGraph.empty).start with
          | some s => dsimp only; exact hexit _ _ (ih s _ _ h1)
          | none =>
            dsimp only
            cases hcs : (step.composite.getD SubGraph.empty).steps with
            | nil => dsimp only; exact hexit _ _ h1
            | cons first rest =>
              dsimp only
              cases hid : first.id with
              | some fid => dsimp only; exact hexit _ _ (ih fid _ _ h1)
              | none => dsimp only; exact hexit _ _ h1
        · simp only [if_neg hc]
          by_cases hL : step.type.getD "" = "LOOP"
          · simp only [if_pos hL]
            cases hs : tstr (step.loop.getD SubGraph.empty).start with
            | some s => dsimp only; exact hexit _ _ (ih s _ _ h1)
            | none => dsimp only; exact hexit _ _ h1
          · simp only [if_neg hL]
            by_cases hC : step.type.getD "" = "CONDITIONAL"
            · simp only [if_pos hC]
              have hfold : ∀ (exprs : List Expression) (st0 : TraceSt),
                  st0.visited ⊆ st0.reachable →
                  (exprs.foldl (fun acc e =>
                    match tstr e.next with
                    | some n => traceSteps fuel n dict acc
                    | none => acc) st0).visited ⊆
                  (exprs.foldl (fun acc e =>
                    match tstr e.next with
                    | some n => traceSteps fuel n dict acc
                    | none => acc) st0).reachable := by
                intro exprs
                induction exprs with
                | nil => intro st0 h0; exact h0
                | cons e es ihe =>
                  intro st0 h0
                  simp only [List.foldl_cons]
                  refine ihe _ ?_
                  cases tstr e.next with
                  | some n => exact ih n dict st0 h0
                  | none => exact h0
              exact hexit _ _ (hfold _ _ h1)
            · simp only [if_neg hC]
              cases hs : tstr step.next with
              | some s => dsimp only; exact ih s dict _ h1
              | none => dsimp only; exact h1

/-- A traced id with a dictionary entry ends up reachable (provided the
state is well formed: visited ids are already recorded reachable). -/
lemma traceSteps_reaches (fuel : Nat) (sid : String) (dict : List (String × Step))
    (st : TraceSt) (step : Step) (hl : dictLookup dict sid = some step)
    (hvr : st.visited ⊆ st.reachable) :
    sid ∈ (traceSteps (fuel + 1) sid dict st).reachable := by
  rw [traceSteps]
  by_cases hv : sid ∈ st.visited
  · simp only [if_pos hv]; exact hvr hv
  · simp only [if_neg hv, hl]
    have h1 : sid ∈ (TraceSt.mk (addElem st.visited sid) (addElem st.reachable sid)).reachable :=
      mem_addElem_self st.reachable sid
    have hexit : ∀ (o : Option String) (stx : TraceSt), sid ∈ stx.reachable →
        sid ∈ (match o with | some n => traceSteps fuel n dict stx | none => stx).reachable := by
      intro o stx hx
      cases o with
      | some n => exact (traceSteps_mono fuel n dict stx).2 hx
      | none => exact hx
    by_cases hc : step.type.getD "" = "COMPOSITE"
    · simp only [if_pos hc]
      cases hs : tstr (step.composite.getD SubGraph.empty).start with
      | some s =>
        dsimp only
        exact hexit _ _ ((traceSteps_mono fuel s _ _).2 h1)
      | none =>
        dsimp only
        cases hcs : (step.composite.getD SubGraph.empty).steps with
        | nil => dsimp only; exact hexit _ _ h1
        | cons first rest =>
          dsimp only
          cases hid : first.id with
          | some fid => dsimp only; exact hexit _ _ ((traceSteps_mono fuel fid _ _).2 h1)
          | none => dsimp only; exact hexit _ _ h1
    · simp only [if_neg hc]
      by_cases hL : step.type.getD "" = "LOOP"
      · simp only [if_pos hL]
        cases hs : tstr (step.loop.getD SubGraph.empty).start with
        | some s => dsimp only; exact hexit _ _ ((traceSteps_mono fuel s _ _).2 h1)
        | none => dsimp only; exact hexit _ _ h1
      · simp only [if_neg hL]
        by_cases hC : step.type.getD "" = "CONDITIONAL"
        · simp only [if_pos hC]
          refine hexit _ _ ?_
          have := foldExprs_mono fuel dict
            (step.conditional.getD Conditional.empty).expressions
            ⟨addElem st.visited sid, addElem st.reachable sid⟩
          simp only [foldExprs] at this
          exact this.2 h1
        · simp only [if_neg hC]
          cases hs : tstr step.next with
          | some s => dsimp only; exact (traceSteps_mono fuel s dict _).2 h1
          | none => dsimp only; exact h1

/-- One unfolding of the traversal on an unvisited LOOP step: enter the body
at `loop.start` when truthy (no other entry), then follow
`loop.next or step.next`. -/
lemma traceSteps_loop_eq (fuel : Nat) (sid : String) (dict : List (String × Step))
    (st : TraceSt) (step : Step)
    (hv : sid ∉ st.visited) (hl : dictLookup dict sid = some step)
    (ht : step.type.getD "" = "LOOP") :
    traceSteps (fuel + 1) sid dict st =
      (let st1 : TraceSt := ⟨addElem st.visited sid, addElem st.reachable sid⟩
       let lp := step.loop.getD SubGraph.empty
       let st2 := match tstr lp.start with
         | some s => traceSteps fuel s (topStepDict lp.steps) st1
         | none => st1
       match pyOr lp.next step.next with
       | some n => traceSteps fuel n dict st2
       | none => st2) := by
  rw [traceSteps]
  simp only [if_neg hv, hl, ht]
  simp

/-- One unfolding of the traversal on an unvisited CONDITIONAL step: fold
over the expression edges, then follow `conditional.next or step.next`. -/
lemma traceSteps_cond_eq (fuel : Nat) (sid : String) (dict : List (String × Step))
    (st : TraceSt) (step : Step)
    (hv : sid ∉ st.visited) (hl : dictLookup dict sid = some step)
    (ht : step.type.getD "" = "CONDITIONAL") :
    traceSteps (fuel + 1) sid dict st =
      (let st1 : TraceSt := ⟨addElem st.visited sid, addElem st.reachable sid⟩
       let cond := step.conditional.getD Conditional.empty
       let st2 := foldExprs fuel dict cond.expressions st1
       match pyOr cond.next step.next with
       | some n => traceSteps fuel n dict st2
       | none => st2) := by
  rw [traceSteps]
  simp only [if_neg hv, hl, ht, foldExprs]
  simp

/-- The expression fold preserves well-formed states. -/
lemma foldExprs_vr (fuel : Nat) (dict : List (String × Step)) :
    ∀ (exprs : List Expression) (st : TraceSt), st.visited ⊆ st.reachable →
      (foldExprs fuel dict exprs st).visited ⊆ (foldExprs fuel dict exprs st).reachable := by
  intro exprs
  induction exprs with
  | nil => intro st h; exact h
  | cons e es ihe =>
    intro st h
    simp only [foldExprs, List.foldl_cons] at ihe ⊢
    refine ihe _ ?_
    cases tstr e.next with
    | some n => exact traceSteps_vr fuel n dict st h
    | none => exact h

/-- Every expression edge with a dictionary entry is marked reachable by the
expression fold. -/
lemma foldExprs_reaches (fuel : Nat) (dict : List (String × Step)) :
    ∀ (exprs : List Expression) (e : Expression) (n : String) (st : TraceSt),
      e ∈ exprs → tstr e.next = some n → (dictLookup dict n).isSome = true →
      st.visited ⊆ st.reachable →
      n ∈ (foldExprs (fuel + 1) dict exprs st).reachable := by
  intro exprs
  induction exprs with
  | nil => intro e n st hmem; exact absurd hmem (List.not_mem_nil e)
  | cons e0 es ihe =>
    intro e n st hmem hnext hlook hvr
    simp only [foldExprs, List.foldl_cons] at ihe ⊢
    rcases List.mem_cons.mp hmem with he | he
    · subst he
      rw [hnext]
      obtain ⟨s', hs'⟩ := Option.isSome_iff_exists.mp hlook
      have hn : n ∈ (traceSteps (fuel + 1) n dict st).reachable :=
        traceSteps_reaches fuel n dict st s' hs' hvr
      have := foldExprs_mono (fuel + 1) dict es (traceSteps (fuel + 1) n dict st)
      simp only [foldExprs] at this
      exact this.2 hn
    · refine ihe e n _ he hnext hlook ?_
      cases tstr e0.next with
      | some m => exact traceSteps_vr (fuel + 1) m dict st hvr
      | none => exact hvr

/-! ### The stated properties -/

/-- C6: the reachability traversal shares a single visited set across all
nesting levels: a call on an id already in the visited set returns the state
unchanged regardless of the current scope dictionary, so that occurrence is
not traversed and its successors are not explored through it.  Concretely:
with top-level step `x` visited first, the composite-internal step also named
`x` (which has successor `y` in its own scope) is not traversed again, and
`y` is never marked reachable. -/
theorem visited_set_shared_across_scopes :
    (∀ (fuel : Nat) (sid : String) (dict : List (String × Step)) (st : TraceSt),
       sid ∈ st.visited → traceSteps fuel sid dict st = st) ∧
    (reachResult [stTopX, stComp] "x").reachable = ["x", "a2"] ∧
    "y" ∉ (reachResult [stTopX, stComp] "x").reachable ∧
    ((stComp.composite.getD SubGraph.empty).steps.headD stComp).id = some "x" ∧
    ((stComp.composite.getD SubGraph.empty).steps.headD stComp).next = some "y" ∧
    (stComp.composite.getD SubGraph.empty).start = some "x" := by
  refine ⟨traceSteps_visited, by decide, by decide, by decide, by decide, by decide⟩

/-- Witness for C6 at a concrete input: the id `q` is already visited, and
the traversal over a non-empty dictionary leaves the state untouched. -/
theorem visited_set_shared_across_scopes_witness :
    ("q" ∈ (TraceSt.mk ["q"] ["q"]).visited) ∧
    traceSteps 3 "q" (topStepDict [stA, stB]) ⟨["q"], ["q"]⟩ = ⟨["q"], ["q"]⟩ :=
  ⟨by decide,
   visited_set_shared_across_scopes.1 3 "q" (topStepDict [stA, stB]) ⟨["q"], ["q"]⟩ (by decide)⟩

/-- C2 counterexample: a LOOP step whose body declares a step but no
`loop.start` does not enter its nested graph at the first declared step —
`x` stays unreachable — although the claim (symmetry with COMPOSITE) says it
would be entered. -/
theorem loop_first_step_fallback_counterexample :
    stLoopEx.type = some "LOOP" ∧
    (stLoopEx.loop.getD SubGraph.empty).start = none ∧
    (stLoopEx.loop.getD SubGraph.empty).steps.isEmpty = false ∧
    ((stLoopEx.loop.getD SubGraph.empty).steps.headD stLoopEx).id = some "x" ∧
    exLoopFlow.resolver.isSome = true ∧
    "x" ∉ (reachResult [stLoopEx] "l").reachable := by decide

/-- C2 (amended): for a reachable LOOP step, the traversal enters the nested
graph only at `loop.start` when that field is present and truthy (there is no
fallback to the first declared body step, unlike COMPOSITE), and after the
inner graph the exit edge is `loop.next` if truthy else the step's own
`next`; both targets are marked reachable when they exist in their scope. -/
theorem loop_edge_resolution (fuel : Nat) (sid : String)
    (dict : List (String × Step)) (st : TraceSt) (step : Step)
    (hl : dictLookup dict sid = some step)
    (ht : step.type.getD "" = "LOOP")
    (hv : sid ∉ st.visited)
    (hvr : st.visited ⊆ st.reachable) :
    (∀ ls, tstr (step.loop.getD SubGraph.empty).start = some ls →
       (dictLookup (topStepDict (step.loop.getD SubGraph.empty).steps) ls).isSome = true →
       ls ∈ (traceSteps (fuel + 2) sid dict st).reachable) ∧
    (∀ n, pyOr (step.loop.getD SubGraph.empty).next step.next = some n →
       (dictLookup dict n).isSome = true →
       n ∈ (traceSteps (fuel + 2) sid dict st).reachable) ∧
    (tstr (step.loop.getD SubGraph.empty).start = none →
       traceSteps (fuel + 2) sid dict st =
         (match pyOr (step.loop.getD SubGraph.empty).next step.next with
          | some n => traceSteps (fuel + 1) n dict
              ⟨addElem st.visited sid, addElem st.reachable sid⟩
          | none => ⟨addElem st.visited sid, addElem st.reachable sid⟩)) := by
  have heq := traceSteps_loop_eq (fuel + 1) sid dict st step hv hl ht
  rw [heq]
  dsimp only
  have h1 : (TraceSt.mk (addElem st.visited sid) (addElem st.reachable sid)).visited ⊆
      (TraceSt.mk (addElem st.visited sid) (addElem st.reachable sid)).reachable :=
    addElem_subset_addElem hvr sid
  refine ⟨?_, ?_, ?_⟩
  · intro ls hls hlook
    rw [hls]
    dsimp only
    obtain ⟨s', hs'⟩ := Option.isSome_iff_exists.mp hlook
    have hin : ls ∈ (traceSteps (fuel + 1) ls
        (topStepDict (step.loop.getD SubGraph.empty).steps)
        ⟨addElem st.visited sid, addElem st.reachable sid⟩).reachable :=
      traceSteps_reaches fuel ls _ _ s' hs' h1
    cases pyOr (step.loop.getD SubGraph.empty).next step.next with
    | some n => exact (traceSteps_mono (fuel + 1) n dict _).2 hin
    | none => exact hin
  · intro n hn hlook
    rw [hn]
    dsimp only
    obtain ⟨s', hs'⟩ := Option.isSome_iff_exists.mp hlook
    have h2 : ∀ st2 : TraceSt, st2.visited ⊆ st2.reachable →
        n ∈ (traceSteps (fuel + 1) n dict st2).reachable :=
      fun st2 hst2 => traceSteps_reaches fuel n dict st2 s' hs' hst2
    cases hls : tstr (step.loop.getD SubGraph.empty).start with
    | some s =>
      dsimp only
      exact h2 _ (traceSteps_vr (fuel + 1) s _ _ h1)
    | none =>
      dsimp only
      exact h2 _ h1
  · intro hnone
    rw [hnone]

/-- Witness for C2 (amended) at a concrete input: a LOOP step with
`loop.start: "x2"` and its own `next: "m2"` marks both ids reachable. -/
theorem loop_edge_resolution_witness :
    "x2" ∈ (traceSteps 2 "l2" (topStepDict [stLoop2, stM2]) ⟨[], []⟩).reachable ∧
    "m2" ∈ (traceSteps 2 "l2" (topStepDict [stLoop2, stM2]) ⟨[], []⟩).reachable := by
  have h := loop_edge_resolution 0 "l2" (topStepDict [stLoop2, stM2]) ⟨[], []⟩ stLoop2
    (by rfl) (by rfl) (by decide) (by intro a ha; exact ha)
  exact ⟨h.1 "x2" (by rfl) (by rfl), h.2.1 "m2" (by rfl) (by rfl)⟩

/-- C8: for a reachable CONDITIONAL step the traversal follows every
expression's truthy `next` and also the default branch —
`conditional.next` if truthy else the step's own `next` — marking each
existing target reachable; concretely, a CONDITIONAL step with two
expressions aimed at `s1` and `s2` and a default `next` of `s3` marks all
three reachable. -/
theorem conditional_fanout (fuel : Nat) (sid : String)
    (dict : List (String × Step)) (st : TraceSt) (step : Step)
    (hl : dictLookup dict sid = some step)
    (ht : step.type.getD "" = "CONDITIONAL")
    (hv : sid ∉ st.visited)
    (hvr : st.visited ⊆ st.reachable) :
    (∀ e n, e ∈ (step.conditional.getD Conditional.empty).expressions →
       tstr e.next = some n → (dictLookup dict n).isSome = true →
       n ∈ (traceSteps (fuel + 2) sid dict st).reachable) ∧
    (∀ n, pyOr (step.conditional.getD Conditional.empty).next step.next = some n →
       (dictLookup dict n).isSome = true →
       n ∈ (traceSteps (fuel + 2) sid dict st).reachable) ∧
    (reachResult [stCondEx, cs1, cs2, cs3] "cond").reachable = ["cond", "s1", "s2", "s3"] := by
  have heq := traceSteps_cond_eq (fuel + 1) sid dict st step hv hl ht
  rw [heq]
  dsimp only
  have h1 : (TraceSt.mk (addElem st.visited sid) (addElem st.reachable sid)).visited ⊆
      (TraceSt.mk (addElem st.visited sid) (addElem st.reachable sid)).reachable :=
    addElem_subset_addElem hvr sid
  refine ⟨?_, ?_, by decide⟩
  · intro e n he hn hlook
    have hfold : n ∈ (foldExprs (fuel + 1) dict
        (step.conditional.getD Conditional.empty).expressions
        ⟨addElem st.visited sid, addElem st.reachable sid⟩).reachable :=
      foldExprs_reaches fuel dict _ e n _ he hn hlook h1
    cases pyOr (step.conditional.getD Conditional.empty).next step.next with
    | some m => exact (traceSteps_mono (fuel + 1) m dict _).2 hfold
    | none => exact hfold
  · intro n hn hlook
    rw [hn]
    dsimp only
    obtain ⟨s', hs'⟩ := Option.isSome_iff_exists.mp hlook
    exact traceSteps_reaches fuel n dict _ s' hs'
      (foldExprs_vr (fuel + 1) dict _ _ h1)

/-- Witness for C8 at a concrete input: the example conditional flow marks
both expression targets and the default target reachable. -/
theorem conditional_fanout_witness :
    "s1" ∈ (traceSteps 2 "cond" (topStepDict [stCondEx, cs1, cs2, cs3]) ⟨[], []⟩).reachable ∧
    "s2" ∈ (traceSteps 2 "cond" (topStepDict [stCondEx, cs1, cs2, cs3]) ⟨[], []⟩).reachable ∧
    "s3" ∈ (traceSteps 2 "cond" (topStepDict [stCondEx, cs1, cs2, cs3]) ⟨[], []⟩).reachable := by
  have h := conditional_fanout 0 "cond" (topStepDict [stCondEx, cs1, cs2, cs3]) ⟨[], []⟩
    stCondEx (by rfl) (by rfl) (by decide) (by intro a ha; exact ha)
  exact ⟨h.1 ⟨some "EQ", some "s1"⟩ "s1" (by decide) (by rfl) (by rfl),
         h.1 ⟨some "EQ", some "s2"⟩ "s2" (by decide) (by rfl) (by rfl),
         h.2.1 "s3" (by rfl) (by rfl)⟩

/-- C1: with a truthy resolver `start`, every declared top-level id not in
the traversal's reachable set is in the orphan list, the orphan list is
sorted, and when non-empty it is reported in one Error message listing all
orphans; concretely, for start `a`, steps `a -> b` and orphan `c`, the check
yields exactly the orphan Error naming only `c` plus its fixed follow-up. -/
theorem connectivity_orphans_reported
    (f : FlowDoc) (r : Resolver) (steps : List Step) (s0 : String)
    (hr : f.resolver = some r) (hs : r.steps = some steps)
    (h0 : tstr r.start = some s0) :
    (∀ i, i ∈ topStepIds steps → i ∉ (reachResult steps s0).reachable →
       i ∈ unreachableIds steps s0) ∧
    (unreachableIds steps s0).Sorted (fun a b => a ≤ b) ∧
    (unreachableIds steps s0 ≠ [] →
       orphanMsg (unreachableIds steps s0) ∈ validate_step_connectivity f) ∧
    validate_step_connectivity exC1flow = [orphanMsg ["c"], allConnectedMsg] := by
  refine ⟨?_, sortStrs_sorted _, ?_, by decide⟩
  · intro i hin hnr
    exact mem_sortStrs.mpr (List.mem_filter.mpr ⟨hin, by simp [hnr]⟩)
  · intro hne
    simp only [validate_step_connectivity, hr, hs, h0]
    rw [if_neg hne]
    exact List.mem_append.mpr (Or.inl (List.mem_append.mpr (Or.inl (by simp))))

/-- Witness for C1 at the concrete example flow. -/
theorem connectivity_orphans_reported_witness :
    tstr (Resolver.mk (some "a") (some [stA, stB, stC])).start = some "a" ∧
    (unreachableIds [stA, stB, stC] "a" ≠ [] →
      orphanMsg (unreachableIds [stA, stB, stC] "a") ∈ validate_step_connectivity exC1flow) :=
  ⟨by rfl,
   (connectivity_orphans_reported exC1flow ⟨some "a", some [stA, stB, stC]⟩
     [stA, stB, stC] "a" rfl rfl rfl).2.2.1⟩

/-- A dangling expression edge at index `j` yields its indexed message in
the conditional reference errors (messages are zero-indexed here). -/
lemma condExprRefErrors_mem (dict : List (String × Step)) (sid : String) :
    ∀ (exprs : List Expression) (i j : Nat) (e : Expression) (n : String),
      exprs.get? j = some e → tstr e.next = some n →
      (dictLookup dict n).isNone = true →
      fmtErr ("Conditional step " ++ pyq ++ sid ++ pyq ++ " expression " ++
        toString (i + j) ++ " references non-existent next step " ++ pyq ++ n ++ pyq) ∈
        condExprRefErrors exprs i dict sid := by
  intro exprs
  induction exprs with
  | nil => intro i j e n hj; simp at hj
  | cons e0 es ihe =>
    intro i j e n hj hn hno
    cases j with
    | zero =>
      simp only [List.get?] at hj
      injection hj with hj
      subst hj
      simp only [condExprRefErrors, hn, hno, Nat.add_zero]
      simp
    | succ j' =>
      simp only [List.get?] at hj
      have hmem := ihe (i + 1) j' e n hj hn hno
      have harith : i + 1 + j' = i + (j' + 1) := by omega
      rw [harith] at hmem
      simp only [condExprRefErrors]
      exact List.mem_append.mpr (Or.inr hmem)

/-- C3 counterexample: a flow whose resolver has no `start` but whose only
step carries a dangling `next` edge (`zz` is not declared) reports only the
missing-start Error — the dangling edge produces no Error, against the
claim that every dangling edge is reported for every flow. -/
theorem dangling_unreported_without_start_counterexample :
    stDangling.next = some "zz" ∧
    (dictLookup (topStepDict [stDangling]) "zz").isNone = true ∧
    exNoStart.resolver.isSome = true ∧
    validate_step_connectivity exNoStart = [missingStartMsg] := by decide

/-- C3 (amended): for every flow whose resolver carries steps and a truthy
`start`, every next-style edge read off a top-level step per its declared
type (the step, `composite.next` on a COMPOSITE, `loop.next` on a LOOP, each
expression `next` and the default `next` on a CONDITIONAL) that names an id
absent from the top-level lookup produces an Error naming the missing target
id, independent of the referencing step being reachable. -/
theorem dangling_references_reported
    (f : FlowDoc) (r : Resolver) (steps : List Step) (s0 : String) (step : Step)
    (hr : f.resolver = some r) (hs : r.steps = some steps)
    (h0 : tstr r.start = some s0) (hstep : step ∈ steps) :
    (∀ n, tstr step.next = some n →
       (dictLookup (topStepDict steps) n).isNone = true →
       fmtErr ("Step " ++ pyq ++ step.id.getD "unknown" ++ pyq ++
         " references non-existent next step " ++ pyq ++ n ++ pyq) ∈
         validate_step_connectivity f) ∧
    (step.type.getD "" = "COMPOSITE" →
       ∀ n, tstr (step.composite.getD SubGraph.empty).next = some n →
       (dictLookup (topStepDict steps) n).isNone = true →
       fmtErr ("Composite step " ++ pyq ++ step.id.getD "unknown" ++ pyq ++
         " references non-existent next step " ++ pyq ++ n ++ pyq) ∈
         validate_step_connectivity f) ∧
    (step.type.getD "" = "LOOP" →
       ∀ n, tstr (step.loop.getD SubGraph.empty).next = some n →
       (dictLookup (topStepDict steps) n).isNone = true →
       fmtErr ("Loop step " ++ pyq ++ step.id.getD "unknown" ++ pyq ++
         " references non-existent next step " ++ pyq ++ n ++ pyq) ∈
         validate_step_connectivity f) ∧
    (step.type.getD "" = "CONDITIONAL" →
       ∀ j e n, (step.conditional.getD Conditional.empty).expressions.get? j = some e →
       tstr e.next = some n →
       (dictLookup (topStepDict steps) n).isNone = true →
       fmtErr ("Conditional step " ++ pyq ++ step.id.getD "unknown" ++ pyq ++
         " expression " ++ toString j ++ " references non-existent next step " ++
         pyq ++ n ++ pyq) ∈ validate_step_connectivity f) ∧
    (step.type.getD "" = "CONDITIONAL" →
       ∀ n, tstr (step.conditional.getD Conditional.empty).next = some n →
       (dictLookup (topStepDict steps) n).isNone = true →
       fmtErr ("Conditional step " ++ pyq ++ step.id.getD "unknown" ++ pyq ++
         " references non-existent default next step " ++ pyq ++ n ++ pyq) ∈
         validate_step_connectivity f) := by
  have hlift : ∀ m, m ∈ stepNextRefErrors step (topStepDict steps) (step.id.getD "unknown") →
      m ∈ validate_step_connectivity f := by
    intro m hm
    simp only [validate_step_connectivity, hr, hs, h0]
    refine List.mem_append.mpr (Or.inr ?_)
    exact List.mem_flatMap.mpr ⟨step, hstep, hm⟩
  refine ⟨?_, ?_, ?_, ?_, ?_⟩
  · intro n hn hno
    refine hlift _ ?_
    simp only [stepNextRefErrors, hn, hno]
    simp
  · intro ht n hn hno
    refine hlift _ ?_
    simp only [stepNextRefErrors, ht, hn, hno]
    simp
  · intro ht n hn hno
    refine hlift _ ?_
    simp only [stepNextRefErrors, ht, hn, hno]
    simp
  · intro ht j e n hj hn hno
    refine hlift _ ?_
    simp only [stepNextRefErrors, ht]
    have hmem := condExprRefErrors_mem (topStepDict steps) (step.id.getD "unknown")
      (step.conditional.getD Conditional.empty).expressions 0 j e n hj hn hno
    rw [Nat.zero_add] at hmem
    refine List.mem_append.mpr (Or.inr ?_)
    simp only [if_neg (by decide : ¬ ("CONDITIONAL" = "COMPOSITE")),
      if_neg (by decide : ¬ ("CONDITIONAL" = "LOOP")),
      if_pos (rfl : "CONDITIONAL" = "CONDITIONAL")]
    exact List.mem_append.mpr (Or.inl hmem)
  · intro ht n hn hno
    refine hlift _ ?_
    simp only [stepNextRefErrors, ht, hn, hno]
    simp

/-- Witness for C3 (amended) at a concrete input: the dangling edge of the
flow that does declare a start is reported. -/
theorem dangling_references_reported_witness :
    tstr stDangling.next = some "zz" ∧
    (dictLookup (topStepDict [stDangling]) "zz").isNone = true ∧
    fmtErr ("Step " ++ pyq ++ "a" ++ pyq ++ " references non-existent next step " ++
      pyq ++ "zz" ++ pyq) ∈ validate_step_connectivity exWithStart := by
  refine ⟨by rfl, by rfl, ?_⟩
  have h := dangling_references_reported exWithStart ⟨some "a", some [stDangling]⟩
    [stDangling] "a" stDangling rfl rfl rfl (List.Mem.head _)
  exact h.1 "zz" rfl rfl

/-- C4 counterexample: for status `DRAFT` the checker records three Errors,
not two, and records nothing at Info severity — the valid-value list is
itself recorded as an Error. -/
theorem draft_status_counterexample :
    (validate_status_field flowDraft).errors.length = 3 ∧
    (validate_status_field flowDraft).info = [] ∧
    (validate_status_field flowDraft).warnings = [] := by decide

/-- C4 (amended): when the status field is `DRAFT` the checker records
exactly three Errors — one naming the invalid value `DRAFT`, one listing the
valid status values, and the never-use-DRAFT guidance — and no Warning or
Info. -/
theorem draft_status_errors (f : FlowDoc) (h : f.status = some "DRAFT") :
    validate_status_field f =
      ⟨[fmtErr ("Invalid status value " ++ pyq ++ "DRAFT" ++ pyq ++
          ". This will cause deserialization failure!"),
        fmtErr ("Valid status values are: " ++ String.intercalate ", " VALID_STATUS_VALUES),
        fmtErr ("NEVER use " ++ pyq ++ "DRAFT" ++ pyq ++ " - it" ++ pyq ++
          "s not a valid enum value")], [], []⟩ := by
  cases f with
  | mk status resolver =>
    simp only at h
    subst h
    rfl

/-- Witness for C4 (amended) at the concrete DRAFT flow. -/
theorem draft_status_errors_witness :
    flowDraft.status = some "DRAFT" ∧
    validate_status_field flowDraft =
      ⟨[fmtErr ("Invalid status value " ++ pyq ++ "DRAFT" ++ pyq ++
          ". This will cause deserialization failure!"),
        fmtErr ("Valid status values are: " ++ String.intercalate ", " VALID_STATUS_VALUES),
        fmtErr ("NEVER use " ++ pyq ++ "DRAFT" ++ pyq ++ " - it" ++ pyq ++
          "s not a valid enum value")], [], []⟩ :=
  ⟨rfl, draft_status_errors flowDraft rfl⟩

/-- C9: a top-level step without an `id` key is invisible to the
connectivity analysis data: it is never added to the step lookup or the
declared-id set (so the dictionaries with and without it coincide, and no
edge can resolve to it), and the orphan list only ever contains declared
ids, so such a step can never be reported as orphaned. -/
theorem idless_step_excluded (l1 l2 : List Step) (s : Step) (h : s.id = none) :
    topStepDict (l1 ++ s :: l2) = topStepDict (l1 ++ l2) ∧
    topStepIds (l1 ++ s :: l2) = topStepIds (l1 ++ l2) ∧
    (∀ k, dictLookup (topStepDict (l1 ++ s :: l2)) k =
       dictLookup (topStepDict (l1 ++ l2)) k) ∧
    (∀ (steps : List Step) (s0 : String),
       unreachableIds steps s0 ⊆ topStepIds steps) := by
  have hdict : topStepDict (l1 ++ s :: l2) = topStepDict (l1 ++ l2) := by
    simp [topStepDict, List.filterMap_append, h]
  refine ⟨hdict, ?_, fun k => by rw [hdict], ?_⟩
  · simp [topStepIds, List.foldl_append, h]
  · intro steps s0 i hi
    have := List.mem_filter.mp (mem_sortStrs.mp hi)
    exact this.1

/-- Witness for C9 at a concrete input: dropping the id-less step changes
neither the lookup nor the declared-id set. -/
theorem idless_step_excluded_witness :
    stNoId.id = none ∧
    topStepDict [stA, stNoId, stB] = topStepDict [stA, stB] ∧
    topStepIds [stA, stNoId, stB] = topStepIds [stA, stB] :=
  ⟨rfl,
   (idless_step_excluded [stA] [stB] stNoId rfl).1,
   (idless_step_excluded [stA] [stB] stNoId rfl).2.1⟩

/-- C10: the conditional-operation check inspects only the steps directly in
`resolver.steps` — its output is unchanged when every step's `composite` and
`loop` bodies (and with them all nested steps) are deleted, and concretely a
flow whose only invalid operation `GT` sits on a CONDITIONAL step nested in a
COMPOSITE body yields no diagnostic at all. -/
theorem conditional_ops_top_level_only :
    (∀ (steps : List Step) (i : Nat),
       condOpsSteps (steps.map stripBodies) i = condOpsSteps steps i) ∧
    (("GT", "GREATER_THAN") ∈ INVALID_CONDITIONAL_OPERATIONS ∧
     condNestedGT.type = some "CONDITIONAL" ∧
     ((condNestedGT.conditional.getD Conditional.empty).expressions.headD
       ⟨none, none⟩).operation = some "GT" ∧
     validate_conditional_operations flowNestedGT = Diag.empty) := by
  constructor
  · intro steps
    induction steps with
    | nil => intro i; rfl
    | cons s rest ih =>
      intro i
      simp only [List.map_cons, condOpsSteps]
      rw [ih]
      cases s with
      | mk id ty nx fn cp lp cd => rfl
  · exact ⟨by decide, by decide, by decide, by decide⟩

/-- A per-step naming diagnostic lifts into the whole step-list scan. -/
lemma stepNamesList_mem :
    ∀ (steps : List Step) (i j : Nat) (step : Step) (m : String),
      steps.get? j = some step → m ∈ (stepNameOne step (i + j)).errors →
      m ∈ (stepNamesList steps i).errors := by
  intro steps
  induction steps with
  | nil => intro i j step m hj; simp at hj
  | cons s rest ih =>
    intro i j step m hj hm
    cases j with
    | zero =>
      simp only [List.get?] at hj
      injection hj with hj
      subst hj
      rw [Nat.add_zero] at hm
      simp only [stepNamesList, Diag.append_errors]
      exact List.mem_append.mpr (Or.inl hm)
    | succ j' =>
      simp only [List.get?] at hj
      have harith : i + 1 + j' = i + (j' + 1) := by omega
      have := ih (i + 1) j' step m hj (by rw [harith]; exact hm)
      simp only [stepNamesList, Diag.append_errors]
      exact List.mem_append.mpr (Or.inr this)

lemma stepNameOne_nested_mem (step : Step) (i : Nat) (m : String)
    (hid : step.id.getD "" ≠ "")
    (hm : m ∈ (nestedStepNames step (step.id.getD "")).errors) :
    m ∈ (stepNameOne step i).errors := by
  simp only [stepNameOne]
  rw [if_neg hid]
  simp only [Diag.append_errors]
  exact List.mem_append.mpr (Or.inr hm)

lemma validate_step_names_mem (f : FlowDoc) (r : Resolver) (steps : List Step)
    (j : Nat) (step : Step) (m : String)
    (hr : f.resolver = some r) (hs : r.steps = some steps)
    (hj : steps.get? j = some step)
    (hm : m ∈ (stepNameOne step j).errors) :
    m ∈ (validate_step_names f).errors := by
  simp only [validate_step_names, hr, hs]
  exact stepNamesList_mem steps 0 j step m hj (by rw [Nat.zero_add]; exact hm)

lemma compositeNestedList_mem (p : String) :
    ∀ (l : List Step) (i j : Nat) (n : Step),
      l.get? j = some n → n.id.getD "" ≠ "" →
      reMatchCamel (n.id.getD "") = false →
      fmtTag "❌ ERROR"
        ("Invalid nested step name " ++ pyq ++ n.id.getD "" ++ pyq ++ " - must be camelCase")
        (p ++ ".composite.steps[" ++ toString (i + j) ++ "]") ∈
        (compositeNestedList l i p).errors := by
  intro l
  induction l with
  | nil => intro i j n hj; simp at hj
  | cons n0 rest ih =>
    intro i j n hj hne hc
    cases j with
    | zero =>
      simp only [List.get?] at hj
      injection hj with hj
      subst hj
      simp only [compositeNestedList, Diag.append_errors]
      rw [if_pos ⟨hne, by simp [hc]⟩]
      simp only [Nat.add_zero]
      exact List.mem_append.mpr (Or.inl (by simp [Diag.addError, Diag.empty]))
    | succ j' =>
      simp only [List.get?] at hj
      have harith : i + 1 + j' = i + (j' + 1) := by omega
      have := ih (i + 1) j' n hj hne hc
      rw [harith] at this
      simp only [compositeNestedList, Diag.append_errors]
      exact List.mem_append.mpr (Or.inr this)

lemma loopNestedList_mem (p : String) :
    ∀ (l : List Step) (i j : Nat) (n : Step),
      l.get? j = some n → n.id.getD "" ≠ "" →
      reMatchCamel (n.id.getD "") = false →
      fmtTag "❌ ERROR"
        ("Invalid nested step name " ++ pyq ++ n.id.getD "" ++ pyq ++ " - must be camelCase")
        (p ++ ".loop.steps[" ++ toString (i + j) ++ "]") ∈
        (loopNestedList l i p).errors := by
  intro l
  induction l with
  | nil => intro i j n hj; simp at hj
  | cons n0 rest ih =>
    intro i j n hj hne hc
    cases j with
    | zero =>
      simp only [List.get?] at hj
      injection hj with hj
      subst hj
      rw [loopNestedList]
      simp only [Diag.append_errors]
      rw [if_pos ⟨hne, by simp [hc]⟩]
      simp only [Nat.add_zero]
      exact List.mem_append.mpr (Or.inl
        (List.mem_append.mpr (Or.inl (by simp [Diag.addError, Diag.empty]))))
    | succ j' =>
      simp only [List.get?] at hj
      have harith : i + 1 + j' = i + (j' + 1) := by omega
      have := ih (i + 1) j' n hj hne hc
      rw [harith] at this
      rw [loopNestedList]
      simp only [Diag.append_errors]
      exact List.mem_append.mpr (Or.inr this)

lemma loopNestedList_sub (p : String) :
    ∀ (l : List Step) (i : Nat) (n : Step), n ∈ l →
      ∀ m, m ∈ (nestedStepNames n (p ++ ".loop." ++ n.id.getD "")).errors →
      m ∈ (loopNestedList l i p).errors := by
  intro l
  induction l with
  | nil => intro i n hn; exact absurd hn (List.not_mem_nil n)
  | cons n0 rest ih =>
    intro i n hn m hm
    rcases List.mem_cons.mp hn with he | he
    · subst he
      rw [loopNestedList]
      simp only [Diag.append_errors]
      exact List.mem_append.mpr (Or.inl (List.mem_append.mpr (Or.inr hm)))
    · rw [loopNestedList]
      simp only [Diag.append_errors]
      exact List.mem_append.mpr (Or.inr (ih (i + 1) n he m hm))

/-- C5 counterexample: the step at COMPOSITE depth two has the id
`Bad Name`, which fails the naming pattern, yet the naming checker reports
nothing for the flow — nested-name validation does not recurse through
COMPOSITE bodies. -/
theorem composite_depth_two_naming_counterexample :
    ((((topA.composite.getD SubGraph.empty).steps.headD topA).composite.getD
        SubGraph.empty).steps.headD topA).id = some "Bad Name" ∧
    reMatchCamel "Bad Name" = false ∧
    validate_step_names flowDeepComposite = Diag.empty := by
  refine ⟨by decide, by decide, ?_⟩
  simp [validate_step_names, flowDeepComposite, stepNamesList, stepNameOne, nestedStepNames,
    compositeNestedList, loopNestedList, topA, midB, deepBad, validate_composite_step_name,
    Step.id, Step.type, Step.composite, Step.loop, Step.function, SubGraph.steps, SubGraph.empty,
    reMatchCamel, camelBody, Diag.append, Diag.empty]

/-- C5 (amended): a step id failing the pattern is reported as a naming
Error for every top-level step (with the COMPOSITE-specific message on
COMPOSITE steps), for every step one level inside a COMPOSITE body, and for
every step one level inside a LOOP body; recursion continues through LOOP
bodies only (errors found anywhere below a LOOP body step propagate up),
while steps two or more levels deep reachable only through COMPOSITE bodies
are not checked. -/
theorem step_naming_scopes :
    (∀ (f : FlowDoc) (r : Resolver) (steps : List Step) (j : Nat) (step : Step),
       f.resolver = some r → r.steps = some steps → steps.get? j = some step →
       step.id.getD "" ≠ "" → reMatchCamel (step.id.getD "") = false →
       (step.type.getD "" = "COMPOSITE" →
          fmtTag "❌ ERROR" ("Invalid COMPOSITE step name " ++ pyq ++ step.id.getD "" ++
            pyq ++ " - must be camelCase") ("Step " ++ toString (j + 1)) ∈
            (validate_step_names f).errors) ∧
       (step.type.getD "" ≠ "COMPOSITE" →
          fmtTag "❌ ERROR" ("Invalid step name " ++ pyq ++ step.id.getD "" ++ pyq ++
            " - must be camelCase (start with lowercase, only letters/numbers)")
            ("Step " ++ toString (j + 1)) ∈ (validate_step_names f).errors)) ∧
    (∀ (f : FlowDoc) (r : Resolver) (steps : List Step) (j : Nat) (step : Step)
       (comp : SubGraph) (j2 : Nat) (n : Step),
       f.resolver = some r → r.steps = some steps → steps.get? j = some step →
       step.id.getD "" ≠ "" → step.type = some "COMPOSITE" →
       step.composite = some comp → comp.steps.get? j2 = some n →
       n.id.getD "" ≠ "" → reMatchCamel (n.id.getD "") = false →
       fmtTag "❌ ERROR" ("Invalid nested step name " ++ pyq ++ n.id.getD "" ++ pyq ++
         " - must be camelCase")
         (step.id.getD "" ++ ".composite.steps[" ++ toString j2 ++ "]") ∈
         (validate_step_names f).errors) ∧
    (∀ (f : FlowDoc) (r : Resolver) (steps : List Step) (j : Nat) (step : Step)
       (lp : SubGraph) (j2 : Nat) (n : Step),
       f.resolver = some r → r.steps = some steps → steps.get? j = some step →
       step.id.getD "" ≠ "" → step.type = some "LOOP" →
       step.loop = some lp → lp.steps.get? j2 = some n →
       n.id.getD "" ≠ "" → reMatchCamel (n.id.getD "") = false →
       fmtTag "❌ ERROR" ("Invalid nested step name " ++ pyq ++ n.id.getD "" ++ pyq ++
         " - must be camelCase")
         (step.id.getD "" ++ ".loop.steps[" ++ toString j2 ++ "]") ∈
         (validate_step_names f).errors) ∧
    (∀ (s : Step) (p : String) (lp : SubGraph) (n : Step),
       s.type = some "LOOP" → s.loop = some lp → n ∈ lp.steps →
       ∀ m, m ∈ (nestedStepNames n (p ++ ".loop." ++ n.id.getD "")).errors →
       m ∈ (nestedStepNames s p).errors) := by
  refine ⟨?_, ?_, ?_, ?_⟩
  · intro f r steps j step hr hs hj hid hc
    constructor
    · intro ht
      refine validate_step_names_mem f r steps j step _ hr hs hj ?_
      simp only [stepNameOne]
      rw [if_neg hid, if_pos ht]
      simp only [Diag.append_errors]
      refine List.mem_append.mpr (Or.inl ?_)
      simp only [validate_composite_step_name, Diag.append_errors]
      refine List.mem_append.mpr (Or.inr ?_)
      rw [if_pos (by simp [hc])]
      simp [Diag.addError, Diag.empty]
    · intro ht
      refine validate_step_names_mem f r steps j step _ hr hs hj ?_
      simp only [stepNameOne]
      rw [if_neg hid, if_neg ht]
      simp only [Diag.append_errors]
      refine List.mem_append.mpr (Or.inl (List.mem_append.mpr (Or.inl ?_)))
      rw [if_pos (by simp [hc])]
      simp [Diag.addError, Diag.addInfo, Diag.empty]
  · intro f r steps j step comp j2 n hr hs hj hid ht hcomp hj2 hne hc
    refine validate_step_names_mem f r steps j step _ hr hs hj ?_
    refine stepNameOne_nested_mem step j _ hid ?_
    rw [nestedStepNames]
    rw [if_pos ⟨ht, by simp [hcomp]⟩]
    have := compositeNestedList_mem (step.id.getD "") comp.steps 0 j2 n hj2 hne hc
    rw [Nat.zero_add] at this
    simpa [hcomp] using this
  · intro f r steps j step lp j2 n hr hs hj hid ht hlp hj2 hne hc
    refine validate_step_names_mem f r steps j step _ hr hs hj ?_
    refine stepNameOne_nested_mem step j _ hid ?_
    rw [nestedStepNames, if_neg (by simp [ht]), if_pos ht]
    split
    · rename_i lp2 hy
      rw [hlp] at hy
      injection hy with hy
      subst hy
      have := loopNestedList_mem (step.id.getD "") lp.steps 0 j2 n hj2 hne hc
      rw [Nat.zero_add] at this
      exact this
    · rename_i hy
      rw [hlp] at hy
      cases hy
  · intro s p lp n ht hlp hn m hm
    rw [nestedStepNames, if_neg (by simp [ht]), if_pos ht]
    split
    · rename_i lp2 hy
      rw [hlp] at hy
      injection hy with hy
      subst hy
      exact loopNestedList_sub p lp.steps 0 n hn m hm
    · rename_i hy
      rw [hlp] at hy
      cases hy

/-- Witness for C5 (amended) at a concrete input: the bad top-level id
`Bad` is reported with its per-step location. -/
theorem step_naming_scopes_witness :
    (stBadTop.id.getD "" ≠ "") ∧ reMatchCamel "Bad" = false ∧
    fmtTag "❌ ERROR" ("Invalid step name " ++ pyq ++ "Bad" ++ pyq ++
      " - must be camelCase (start with lowercase, only letters/numbers)")
      ("Step " ++ toString 1) ∈ (validate_step_names flowBadTop).errors := by
  refine ⟨by decide, by decide, ?_⟩
  exact (step_naming_scopes.1 flowBadTop ⟨some "x", some [stBadTop]⟩ [stBadTop] 0 stBadTop
    rfl rfl rfl (by decide) (by decide)).2 (by decide)

/-- A marker-carrying object without `children` reports the tagged message. -/
lemma vqe_missing_children (fields : List (String × Json)) (loc : String)
    (h1 : isVN fields = true) (h2 : hasKey fields "children" = false) :
    vnMissingMsg loc ∈ vqe (Json.obj fields) loc := by
  rw [vqe, if_pos h1, if_pos (by simp [h2])]
  simp

lemma vqeFields_obj_sub :
    ∀ (fields : List (String × Json)) (loc k : String) (g : List (String × Json)) (m : String),
      (k, Json.obj g) ∈ fields → m ∈ vqe (Json.obj g) (dotLoc loc k) →
      m ∈ vqeFields fields loc := by
  intro fields
  induction fields with
  | nil => intro loc k g m hmem; exact absurd hmem (List.not_mem_nil _)
  | cons p rest ih =>
    intro loc k g m hmem hm
    rcases List.mem_cons.mp hmem with he | he
    · subst he
      rw [vqeFields]
      exact List.mem_append.mpr (Or.inl hm)
    · obtain ⟨k0, v0⟩ := p
      have hr := ih loc k g m he hm
      cases v0 <;> (simp only [vqeFields]; exact List.mem_append.mpr (Or.inr hr))

lemma vqeArr_get :
    ∀ (items : List Json) (i j : Nat) (g : List (String × Json)) (loc k m : String),
      items.get? j = some (Json.obj g) →
      m ∈ vqe (Json.obj g) (idxLoc loc k (i + j)) →
      m ∈ vqeArr items i loc k := by
  intro items
  induction items with
  | nil => intro i j g loc k m hj; simp at hj
  | cons it rest ih =>
    intro i j g loc k m hj hm
    cases j with
    | zero =>
      simp only [List.get?] at hj
      injection hj with hj
      subst hj
      rw [Nat.add_zero] at hm
      rw [vqeArr]
      exact List.mem_append.mpr (Or.inl hm)
    | succ j' =>
      simp only [List.get?] at hj
      have harith : i + 1 + j' = i + (j' + 1) := by omega
      have := ih (i + 1) j' g loc k m hj (by rw [harith]; exact hm)
      cases it <;> (simp only [vqeArr]; exact List.mem_append.mpr (Or.inr this))

lemma vqeFields_arr_sub :
    ∀ (fields : List (String × Json)) (loc k : String) (items : List Json) (m : String),
      (k, Json.arr items) ∈ fields → m ∈ vqeArr items 0 loc k →
      m ∈ vqeFields fields loc := by
  intro fields
  induction fields with
  | nil => intro loc k items m hmem; exact absurd hmem (List.not_mem_nil _)
  | cons p rest ih =>
    intro loc k items m hmem hm
    rcases List.mem_cons.mp hmem with he | he
    · subst he
      rw [vqeFields]
      exact List.mem_append.mpr (Or.inl hm)
    · obtain ⟨k0, v0⟩ := p
      have hr := ih loc k items m he hm
      cases v0 <;> (simp only [vqeFields]; exact List.mem_append.mpr (Or.inr hr))

lemma vqe_obj_sub (fields : List (String × Json)) (loc : String) (m : String)
    (hm : m ∈ vqeFields fields loc) : m ∈ vqe (Json.obj fields) loc := by
  rw [vqe]
  exact List.mem_append.mpr (Or.inr hm)

/-- C7 (amended): the structural checker walks every object reachable from
the root through object fields and through object elements of arrays; every
visited object carrying the three ValueNode markers but no `children` key
contributes an Error tagged with the path to that object, and sibling
subtrees are still searched after a ValueNode is found (every field is
descended into regardless of the marker test).  Objects reachable only
through an array nested directly inside another array are not visited. -/
theorem query_executor_walk :
    (∀ (fields : List (String × Json)) (loc : String),
       isVN fields = true → hasKey fields "children" = false →
       vnMissingMsg loc ∈ vqe (Json.obj fields) loc) ∧
    (∀ (fields : List (String × Json)) (loc k : String)
       (g : List (String × Json)) (m : String),
       (k, Json.obj g) ∈ fields → m ∈ vqe (Json.obj g) (dotLoc loc k) →
       m ∈ vqe (Json.obj fields) loc) ∧
    (∀ (fields : List (String × Json)) (loc k : String) (items : List Json)
       (j : Nat) (g : List (String × Json)) (m : String),
       (k, Json.arr items) ∈ fields → items.get? j = some (Json.obj g) →
       m ∈ vqe (Json.obj g) (idxLoc loc k j) → m ∈ vqe (Json.obj fields) loc) := by
  refine ⟨vqe_missing_children, ?_, ?_⟩
  · intro fields loc k g m hmem hm
    exact vqe_obj_sub fields loc m (vqeFields_obj_sub fields loc k g m hmem hm)
  · intro fields loc k items j g m hmem hj hm
    refine vqe_obj_sub fields loc m (vqeFields_arr_sub fields loc k items m hmem ?_)
    exact vqeArr_get items 0 j g loc k m hj (by rw [Nat.zero_add]; exact hm)

/-- C7 counterexample: a ValueNode-shaped object lacking `children` that is
reachable only through an array nested directly inside another array is
never visited — the checker reports nothing, against the claim that every
object reachable through any nesting of objects and arrays is checked. -/
theorem array_in_array_valuenode_counterexample :
    isVN vnFields = true ∧ hasKey vnFields "children" = false ∧
    vqe exArrArr "flow" = [] := by
  refine ⟨by decide, by decide, ?_⟩
  simp [exArrArr, vn0, vnFields, vqe, vqeFields, vqeArr, vqeChildren, isVN, hasKey, getKey,
    childrenOf, List.find?]

/-- Witness for C7 (amended) at a concrete input: the ValueNode one object
field below the root is reported with its dotted path. -/
theorem query_executor_walk_witness :
    isVN vnFields = true ∧ hasKey vnFields "children" = false ∧
    vnMissingMsg "flow.x" ∈ vqe exObjField "flow" := by
  refine ⟨by decide, by decide, ?_⟩
  exact query_executor_walk.2.1 [("x", vn0)] "flow" "x" vnFields (vnMissingMsg "flow.x")
    (List.Mem.head _)
    (query_executor_walk.1 vnFields (dotLoc "flow" "x") (by decide) (by decide))
